import Mathlib

/- Verification development for the Pyben-nio streaming filter engine.
   Bytes are modelled as naturals, byte buffers as lists of naturals,
   byte predicates as Boolean functions on naturals. -/

namespace Pyben

/-- Byte-wise predicate filter, from src/src/methods/match.py function check
(lines 21-29): appends to res every byte of byte_arr whose predicate value
is true, in order. -/
def _check (pred : Nat → Bool) (byte_arr : List Nat) (res : List Nat) : List Nat :=
  byte_arr.foldl (fun r byt => if pred byt then r ++ [byt] else r) res

/-- The in-place accumulation loop of Match internal work-offset allotment,
"for idx in range(1, least_num_procs): ws[idx] += ws[idx-1]": n is the number
of loop indices still to visit and prev the value just written at the
previous index. -/
def accumFrom : Nat → Nat → List Nat → List Nat
  | 0, _, ws => ws
  | _ + 1, _, [] => []
  | n + 1, prev, w :: rest => (prev + w) :: accumFrom n (prev + w) rest

/-- Applies the accumulation loop over indices 1 .. least_num_procs - 1,
leaving the head and all indices beyond the range untouched. -/
def applyAccumLoop (least_num_procs : Nat) : List Nat → List Nat
  | [] => []
  | w :: rest => w :: accumFrom (least_num_procs - 1) w rest

/-- Match work-offset allotment from src/src/methods/match.py (lines 140-155),
m being the minimum per-process work size. none models the Python
exceptions: ZeroDivisionError when m is 0, and IndexError from the statement
"work_offsets[-1] += left" when the list is empty. The Python remainder test
"left >= min_proc_worksize / 2" uses exact float division on integers, which
is equivalent to m <= 2 * left for the machine sizes involved. -/
def _allot_work_offsets (m total_size : Nat) : Option (List Nat) :=
  if m = 0 then none
  else
    let least_num_procs := total_size / m
    let work_offsets := List.replicate least_num_procs m
    let left := total_size - least_num_procs * m
    let ws2 : Option (List Nat) :=
      if m ≤ 2 * left then some (work_offsets ++ [left])
      else
        match work_offsets.getLast? with
        | none => none
        | some w => some (work_offsets.dropLast ++ [w + left])
    ws2.map (applyAccumLoop least_num_procs)

/-- The buffer slices "view[prev_offset:offset]" taken in submission order in
the multiprocess branch of MatchIO.read and MatchSocket.read; an offset at or
before the previous one yields an empty slice, exactly like a Python slice. -/
def poolChunks (buf : List Nat) : Nat → List Nat → List (List Nat)
  | _, [] => []
  | prev, off :: rest => ((buf.drop prev).take (off - prev)) :: poolChunks buf off rest

/-- The multiprocess filtering branch: partition the freshly read raw buffer
with the work-offset allotter, filter each chunk independently with the byte
predicate, and concatenate the filtered chunks in submission order. none
models the IndexError escaping the allotter. -/
def poolCheck (pred : Nat → Bool) (m : Nat) (buf : List Nat) : Option (List Nat) :=
  (_allot_work_offsets m buf.length).map fun offs =>
    ((poolChunks buf 0 offs).map fun c => _check pred c []).flatten

/-- Match residual-buffer service (src/src/methods/match.py lines 131-138):
serve size bytes from the residual buffer, returning the served data and the
new residual buffer; a request at or beyond the buffer length drains it. -/
def _get_and_update_res (size : Nat) (resbuf : List Nat) : List Nat × List Nat :=
  if resbuf.length ≤ size then (resbuf, []) else (resbuf.take size, resbuf.drop size)

/-- One socket recv_into call on a modelled byte stream. The stream is the
list of byte segments still pending; a call returns up to size bytes of the
first segment, pushing a partial segment's remainder back; an empty stream or
an empty first segment yields zero bytes, the peer-closed signal. Callers
always pass size at most the receive view capacity, so the view bound is not
modelled. -/
def recvInto (size : Nat) : List (List Nat) → List Nat × List (List Nat)
  | [] => ([], [])
  | seg :: rest =>
    let chunk := seg.take size
    let leftover := seg.drop size
    (chunk, if leftover.isEmpty then rest else leftover :: rest)

/-- Outcome of a MatchSocket read call: delivered data together with the
updated residual buffer, pending stream and raw-byte counter; err models a
Python exception escaping the call; fuelOut means the iteration bound was
exhausted (the Python loop would simply keep running). -/
inductive SockReadResult where
  | ok (data resbuf : List Nat) (stream : List (List Nat)) (count : Nat)
  | err (msg : String)
  | fuelOut
deriving DecidableEq

/-- The "while True" loop of MatchSocket.read (src/src/methods/match.py lines
234-259), parametrised by the per-buffer filtering step filt: the
single-process branch is plain check, the multiprocess branch is poolCheck.
The raw-byte counter models the base-class increment, which per the spec
accumulates the raw bytes consumed from the stream. A zero-byte recv returns
whatever the residual buffer holds; otherwise the recv'd bytes are filtered,
appended, and the loop serves the request as soon as enough bytes are
buffered. -/
def matchSocketLoop (filt : List Nat → Option (List Nat)) (size : Nat) :
    Nat → List Nat → List (List Nat) → Nat → SockReadResult
  | 0, _, _, _ => .fuelOut
  | fuel + 1, resbuf, stream, count =>
    let r := recvInto size stream
    if r.1 = [] then
      let gr := _get_and_update_res resbuf.length resbuf
      .ok gr.1 gr.2 r.2 count
    else
      match filt r.1 with
      | none => .err "IndexError"
      | some fc =>
        let resbuf2 := resbuf ++ fc
        let count2 := count + r.1.length
        if size ≤ resbuf2.length then
          let gr := _get_and_update_res size resbuf2
          .ok gr.1 gr.2 r.2 count2
        else matchSocketLoop filt size fuel resbuf2 r.2 count2

/-- MatchSocket.read (src/src/methods/match.py lines 225-259): serve directly
from the residual buffer when it already holds size bytes, otherwise run the
recv-and-filter loop. -/
def matchSocketRead (filt : List Nat → Option (List Nat)) (size fuel : Nat)
    (resbuf : List Nat) (stream : List (List Nat)) (count : Nat) : SockReadResult :=
  if size ≤ resbuf.length then
    let gr := _get_and_update_res size resbuf
    .ok gr.1 gr.2 stream count
  else matchSocketLoop filt size fuel resbuf stream count

/-- Outcome of a MatchIO read call: delivered data with the updated file
position, residual buffer, first-read flag and raw-byte counter; noMatch is
the ValueError "No matching byte in the buffered stream"; err models any
other Python exception escaping the call; fuelOut means the iteration bound
was exhausted. -/
inductive FileReadResult where
  | ok (data : List Nat) (pos : Nat) (resbuf : List Nat) (first : Bool) (count : Nat)
  | noMatch
  | err (msg : String)
  | fuelOut
deriving DecidableEq

/-- The "while True" loop of MatchIO.read (src/src/methods/match.py lines
185-219). The backing file is the byte list file with current position pos;
readinto over the size-limited view returns min size (file.length - pos)
bytes (callers keep size at most the view capacity); a short read seeks back
to position 0, the wraparound. first is the private first-read flag; when it
is still set, the position is back at 0 and the residual buffer is empty,
the loop raises noMatch. -/
def matchIOLoop (filt : List Nat → Option (List Nat)) (file : List Nat) (size : Nat) :
    Nat → Nat → List Nat → Bool → Nat → FileReadResult
  | 0, _, _, _, _ => .fuelOut
  | fuel + 1, pos, resbuf, first, count =>
    let nbytes := min size (file.length - pos)
    let chunk := (file.drop pos).take size
    let pos2 := if nbytes < size then 0 else pos + nbytes
    if nbytes = 0 then
      if first ∧ pos2 = 0 ∧ resbuf = [] then .noMatch
      else matchIOLoop filt file size fuel pos2 resbuf first count
    else
      match filt chunk with
      | none => .err "IndexError"
      | some fc =>
        let resbuf2 := resbuf ++ fc
        let count2 := count + nbytes
        if size ≤ resbuf2.length then
          let gr := _get_and_update_res size resbuf2
          .ok gr.1 pos2 gr.2 false count2
        else if first ∧ pos2 = 0 ∧ resbuf2 = [] then .noMatch
        else matchIOLoop filt file size fuel pos2 resbuf2 first count2

/-- MatchIO.read (src/src/methods/match.py lines 176-219): serve directly from
the residual buffer when it already holds size bytes, otherwise run the
read-and-filter loop over the wrapping file stream. -/
def matchIORead (filt : List Nat → Option (List Nat)) (file : List Nat) (size fuel : Nat)
    (pos : Nat) (resbuf : List Nat) (first : Bool) (count : Nat) : FileReadResult :=
  if size ≤ resbuf.length then
    let gr := _get_and_update_res size resbuf
    .ok gr.1 pos gr.2 first count
  else matchIOLoop filt file size fuel pos resbuf first count

/-- Client-side size allotment, src/src/client.py lines 165-175: i_size is the
integer quotient, and the first (size mod num) workers receive one extra
byte each, in worker-index order. The error value models the
ZeroDivisionError that the statement "size // num" raises when num is 0. -/
def __allot_size (size num : Nat) : Except String (List Nat) :=
  if num = 0 then .error "ZeroDivisionError"
  else .ok ((List.range num).map fun i => size / num + if i < size % num then 1 else 0)

/-- One append to the bounded deque used as retention cache in client __run
(a collections deque constructed with maxlen C): on every state with at most
C elements this keeps the last C elements of q plus the new byte, the
oldest element being discarded first when the deque is full. -/
def dequeAppendMax (C : Nat) (q : List Nat) (b : Nat) : List Nat :=
  let q2 := q ++ [b]
  q2.drop (q2.length - C)

/-- The statement "byte_mem.extend(bytes_obj)" in client __run: a deque extend
is a repeated append. -/
def dequeExtend (C : Nat) (q : List Nat) (xs : List Nat) : List Nat :=
  xs.foldl (dequeAppendMax C) q

/-- Per-worker result returned by client __run: start and end timestamps
(modelled as naturals) and the delivered and raw byte counts. -/
structure WorkerResult where
  tStart : Nat
  tEnd : Nat
  recvd : Nat
  rawCount : Nat
deriving DecidableEq

/-- The comprehension collecting futures in client __do_start (line 193):
results are gathered left to right and the first worker exception re-raises
out of the comprehension. -/
def collectResults : List (Except String WorkerResult) → Except String (List WorkerResult)
  | [] => .ok []
  | .error e :: _ => .error e
  | .ok r :: fs => (collectResults fs).map fun rs => r :: rs

/-- The aggregate transfer summary logged by client __do_start: wall-clock
span of the whole parallel transfer and the summed delivered and raw byte
counts. -/
structure Summary where
  totalDur : Int
  totalRecvd : Nat
  totalRaw : Nat
deriving DecidableEq

/-- Result collection and aggregation in client __do_start (src/src/client.py
lines 188-211): collect every worker future, then report the wall-clock span
(max end minus min start) and the summed byte counts. The worker list is
nonempty in the program, as at least one server address is required. -/
def doStart (outcomes : List (Except String WorkerResult)) : Except String Summary :=
  match collectResults outcomes with
  | .error e => .error e
  | .ok rs =>
    .ok { totalDur := ((rs.map fun r => (r.tEnd : Int)).max?.getD 0)
            - ((rs.map fun r => (r.tStart : Int)).min?.getD 0)
        , totalRecvd := (rs.map fun r => r.recvd).sum
        , totalRaw := (rs.map fun r => r.rawCount).sum }

/-- Final state of the client receive loop: delivered byte count, remaining
signed byte budget, cumulative raw count reported by the filter, whether the
loop broke on a zero-consumption read, and the final filter state. -/
structure ClientRun (σ : Type) where
  recvd : Nat
  left : Int
  raw : Nat
  broke : Bool
  state : σ
deriving DecidableEq

/-- The receive loop of client __run (src/src/client.py lines 121-146),
parametrised by the filter read operation f which, per the spec stream-filter
contract, returns the delivered data together with the raw bytes consumed by
the call. Each iteration requests min bufsize left bytes; left is decremented
by the consumed count ctrl_num, not by the delivered length; a call consuming
nothing breaks the loop before its data is counted. none means the iteration
bound was exhausted. The retention-cache write does not affect the loop and
is modelled separately by dequeExtend. -/
def clientLoop {σ : Type} (f : σ → Nat → List Nat × Nat × σ) (bufsize : Nat) :
    Nat → σ → Int → Nat → Nat → Option (ClientRun σ)
  | 0, _, _, _, _ => none
  | fuel + 1, s, left, recvd, raw =>
    if left ≤ 0 then some ⟨recvd, left, raw, false, s⟩
    else
      let num_bys := min bufsize left.toNat
      let r := f s num_bys
      if r.2.1 = 0 then some ⟨recvd, left, raw, true, r.2.2⟩
      else
        clientLoop f bufsize fuel r.2.2 (left - (r.2.1 : Int))
          (recvd + r.1.length) (raw + r.2.1)

/-- Modelled from the spec: the stream-filter read contract of spec section
4.2, read of a requested size returning the delivered data together with the
raw bytes consumed by that call — the iofilter base class and the client-side
filter wiring are not under src. The engine is the embedded MatchSocket
single-process read; the consumed count is the delta of the raw-byte counter.
The fallback branch is unreachable, since a total filtering step never
errors and the fuel exceeds the pending stream length. -/
def matchFilterStep (pred : Nat → Bool) :
    List Nat × List (List Nat) × Nat → Nat →
      List Nat × Nat × (List Nat × List (List Nat) × Nat)
  | (resbuf, stream, count), n =>
    match matchSocketRead (fun c => some (_check pred c [])) n
        ((stream.map List.length).sum + 1) resbuf stream count with
    | .ok d rb st c2 => (d, c2 - count, (rb, st, c2))
    | _ => ([], 0, (resbuf, stream, count))

/-- Python tuple unpacking of a bytes-like object into two targets, as in the
client statement "bytes_obj, ctrl_num = iofilter.read(num_bys)": it succeeds
only when the object has exactly two elements and otherwise raises
ValueError, modelled as none. -/
def tupleUnpack2 (l : List Nat) : Option (Nat × Nat) :=
  match l with
  | [a, b] => some (a, b)
  | _ => none

/- ------------------------------------------------------------------ -/
/- Theorems                                                           -/
/- ------------------------------------------------------------------ -/

/-- The byte-predicate filter is list filtering: check appends exactly the
bytes satisfying the predicate. -/
theorem _check_eq_filter (pred : Nat → Bool) (l res : List Nat) :
    _check pred l res = res ++ l.filter pred := by
  induction l generalizing res with
  | nil => simp [_check]
  | cons b l ih =>
    by_cases hb : pred b
    · simpa [_check, List.foldl_cons, hb, List.filter_cons] using ih (res ++ [b])
    · simpa [_check, List.foldl_cons, hb, List.filter_cons] using ih res

/-- Filtering chunk-by-chunk and concatenating in submission order equals
filtering the concatenation: the order-preservation property the parallel
dispatch is meant to provide, for any true partition of the buffer. -/
theorem check_map_flatten (pred : Nat → Bool) (chunks : List (List Nat)) :
    ((chunks.map fun c => _check pred c []).flatten) = _check pred chunks.flatten [] := by
  induction chunks with
  | nil => simp [_check]
  | cons c cs ih =>
    simp [List.flatten, _check_eq_filter, List.filter_append] at *

/-- Claim C1: filtering a raw buffer through the chunks computed by the chunk
partitioner and concatenating in submission order is NOT byte-identical to
sequential filtering: on the 3-byte buffer 1,2,3 with minimum work size 2 and
the always-true predicate, the partitioner returns offsets 2,1, the second
slice is empty, and byte 3 is dropped. -/
theorem poolCheck_drops_bytes :
    poolCheck (fun _ => true) 2 [1, 2, 3] = some [1, 2] ∧
      _check (fun _ => true) [1, 2, 3] [] = [1, 2, 3] := by decide

/-- Claim C2: the chunk partitioner violates the claimed boundary invariants.
For nbytes 3 and m 2 it returns the offsets 2,1 — not strictly increasing and
with last boundary 1 instead of 3 — because the accumulation loop ranges only
over range(1, least_num_procs) and never accumulates the appended remainder
chunk; for nbytes 1 and m 4 it raises IndexError (modelled as none), since
there is no full-size chunk to fold the small remainder into. -/
theorem allot_work_offsets_not_boundaries :
    _allot_work_offsets 2 3 = some [2, 1] ∧ _allot_work_offsets 4 1 = none := by decide

/-- Claim C3 counterexample: a MatchSocket read in the multiprocess
configuration (minimum work size 4) that receives a single 1-byte segment
raises IndexError out of the chunk partitioner instead of returning exactly
the requested 2 bytes or the exhaustion remainder. -/
theorem matchSocketRead_index_error :
    matchSocketRead (poolCheck (fun b => b % 2 == 0) 4) 2 5 [] [[1]] 0 =
      .err "IndexError" := by decide

/-- Claim C5 counterexample: on a 1-byte file whose predicate matches nothing,
a MatchIO read of size 2 in the multiprocess configuration (minimum work size
4) raises IndexError out of the chunk partitioner, not the claimed
NoMatchError, even though the predicate is false on every byte. -/
theorem matchIORead_index_error :
    matchIORead (poolCheck (fun _ => false) 4) [1] 2 5 0 [] true 0 =
      .err "IndexError" := by decide

/-- Claim C8: the filter read operation returns only the filtered bytes, not
a pair. A MatchSocket read of 4 bytes with an always-true predicate yields
the 4-byte object 1,2,3,4 (together with its updated internal state); the
client-side unpacking of that object into the two targets bytes_obj and
ctrl_num fails, since the object does not have exactly two elements. -/
theorem read_returns_bytes_not_pair :
    matchSocketRead (fun c => some (_check (fun _ => true) c [])) 4 5 [] [[1, 2, 3, 4]] 0 =
        .ok [1, 2, 3, 4] [] [] 4 ∧
      tupleUnpack2 [1, 2, 3, 4] = none := by decide

/-- Claim C9: calling the size allotter with zero workers fails with an error
— the Python statement "size // num" raises ZeroDivisionError, the concrete
realisation of the spec's InvalidArgument failure — for every total size. -/
theorem allot_size_zero_workers (size : Nat) :
    __allot_size size 0 = .error "ZeroDivisionError" := by
  simp [__allot_size]

/-- Claim C6 counterexample: with two workers, one having delivered 50 bytes
and one whose connection failed, the orchestrator re-raises the failure while
collecting results and produces no aggregate report at all — the surviving
worker's 50 delivered bytes appear in no summary. -/
theorem doStart_failure_drops_report :
    doStart [.ok ⟨0, 1, 50, 50⟩, .error "ConnectionRefused"] =
      .error "ConnectionRefused" := rfl

/-- Serving from a residual buffer that holds at least the requested size
delivers exactly the requested number of bytes. -/
theorem length_gau_fst (size : Nat) (resbuf : List Nat) (h : size ≤ resbuf.length) :
    (_get_and_update_res size resbuf).1.length = size := by
  unfold _get_and_update_res
  split
  · rename_i h2
    have h3 : resbuf.length = size := le_antisymm h2 h
    simp [h3]
  · simp only [List.length_take]
    omega

/-- Draining the residual buffer returns the whole buffer and leaves it
empty. -/
theorem gau_drain (resbuf : List Nat) :
    _get_and_update_res resbuf.length resbuf = (resbuf, []) := by
  simp [_get_and_update_res]

/-- A recv call that returns bytes strictly shrinks the total number of bytes
still pending on the stream. -/
theorem recvInto_sum_lt (size : Nat) (stream : List (List Nat))
    (h : (recvInto size stream).1 ≠ []) :
    (((recvInto size stream).2.map List.length).sum) < ((stream.map List.length).sum) := by
  match stream with
  | [] => simp [recvInto] at h
  | seg :: rest =>
    have hs : seg ≠ [] := by
      intro hseg
      simp [recvInto, hseg] at h
    have hsz : size ≠ 0 := by
      intro h0
      simp [recvInto, h0] at h
    simp only [recvInto, List.map_cons, List.sum_cons]
    split
    · rename_i hemp
      have : 1 ≤ seg.length := List.length_pos.mpr hs
      omega
    · rename_i hemp
      simp only [List.map_cons, List.sum_cons, List.length_drop]
      have : 1 ≤ seg.length := List.length_pos.mpr hs
      omega

/-- Step equation for the MatchSocket loop: a zero-byte recv drains the
residual buffer and returns. -/
theorem matchSocketLoop_closed (filt : List Nat → Option (List Nat)) (size fuel : Nat)
    (resbuf : List Nat) (stream : List (List Nat)) (count : Nat)
    (hc : (recvInto size stream).1 = []) :
    matchSocketLoop filt size (fuel + 1) resbuf stream count =
      .ok resbuf [] (recvInto size stream).2 count := by
  have hg := gau_drain resbuf
  simp [matchSocketLoop, hc, hg]

/-- Step equation for the MatchSocket loop: a failing filtering step raises
IndexError. -/
theorem matchSocketLoop_err (filt : List Nat → Option (List Nat)) (size fuel : Nat)
    (resbuf : List Nat) (stream : List (List Nat)) (count : Nat)
    (hc : ¬(recvInto size stream).1 = [])
    (hfc : filt (recvInto size stream).1 = none) :
    matchSocketLoop filt size (fuel + 1) resbuf stream count = .err "IndexError" := by
  simp [matchSocketLoop, hc, hfc]

/-- Step equation for the MatchSocket loop: once the residual buffer reaches
the requested size, the request is served from it. -/
theorem matchSocketLoop_serve (filt : List Nat → Option (List Nat)) (size fuel : Nat)
    (resbuf fc : List Nat) (stream : List (List Nat)) (count : Nat)
    (hc : ¬(recvInto size stream).1 = [])
    (hfc : filt (recvInto size stream).1 = some fc)
    (hsz : size ≤ resbuf.length + fc.length) :
    matchSocketLoop filt size (fuel + 1) resbuf stream count =
      .ok (_get_and_update_res size (resbuf ++ fc)).1
        (_get_and_update_res size (resbuf ++ fc)).2
        (recvInto size stream).2 (count + (recvInto size stream).1.length) := by
  simp [matchSocketLoop, hc, hfc, hsz]

/-- Step equation for the MatchSocket loop: with too few buffered bytes the
loop recurses on the shrunken stream. -/
theorem matchSocketLoop_next (filt : List Nat → Option (List Nat)) (size fuel : Nat)
    (resbuf fc : List Nat) (stream : List (List Nat)) (count : Nat)
    (hc : ¬(recvInto size stream).1 = [])
    (hfc : filt (recvInto size stream).1 = some fc)
    (hsz : ¬size ≤ resbuf.length + fc.length) :
    matchSocketLoop filt size (fuel + 1) resbuf stream count =
      matchSocketLoop filt size fuel (resbuf ++ fc) (recvInto size stream).2
        (count + (recvInto size stream).1.length) := by
  simp [matchSocketLoop, hc, hfc, hsz]

/-- Exactness of the MatchSocket read loop for a total per-chunk filtering
step: when enough fuel covers the pending stream, the loop returns normally
with either exactly the requested size or, on stream exhaustion, the whole
residual remainder. -/
theorem matchSocketLoop_exact (filt : List Nat → List Nat) (size : Nat) :
    ∀ (fuel : Nat) (stream : List (List Nat)) (resbuf : List Nat) (count : Nat),
      ((stream.map List.length).sum) < fuel → resbuf.length < size →
      ∃ d rb st c,
        matchSocketLoop (fun ch => some (filt ch)) size fuel resbuf stream count =
            .ok d rb st c ∧
          (d.length = size ∨ (d.length < size ∧ rb = [])) := by
  intro fuel
  induction fuel with
  | zero => intro stream resbuf count h; omega
  | succ n ih =>
    intro stream resbuf count hsum hlen
    by_cases hc : (recvInto size stream).1 = []
    · exact ⟨resbuf, [], (recvInto size stream).2, count,
        matchSocketLoop_closed (fun ch => some (filt ch)) size n resbuf stream count hc, Or.inr ⟨hlen, rfl⟩⟩
    · by_cases hsz : size ≤ resbuf.length + (filt (recvInto size stream).1).length
      · refine ⟨(_get_and_update_res size (resbuf ++ filt (recvInto size stream).1)).1,
          (_get_and_update_res size (resbuf ++ filt (recvInto size stream).1)).2,
          (recvInto size stream).2, count + (recvInto size stream).1.length,
          matchSocketLoop_serve (fun ch => some (filt ch)) size n resbuf (filt (recvInto size stream).1) stream count hc rfl hsz, Or.inl ?_⟩
        exact length_gau_fst _ _ (by simpa using hsz)
      · have hlt := recvInto_sum_lt size stream hc
        obtain ⟨d, rb, st, c, heq, hp⟩ := ih (recvInto size stream).2
          (resbuf ++ filt (recvInto size stream).1)
          (count + (recvInto size stream).1.length) (by omega) (by simp; omega)
        exact ⟨d, rb, st, c,
          (matchSocketLoop_next (fun ch => some (filt ch)) size n resbuf (filt (recvInto size stream).1) stream count hc rfl hsz).trans heq, hp⟩

/-- Claim C3 (amended): whenever every per-chunk filtering step succeeds — in
particular always in the single-process configuration — a MatchSocket read
returns exactly the requested number of bytes, unless the stream is
exhausted, in which case it returns the accumulated residual remainder
(possibly zero bytes) and leaves the residual buffer empty, rather than
blocking or erroring; in the multiprocess configuration a recv of fewer than
half the minimum work size with no full chunk instead raises IndexError. -/
theorem matchSocketRead_exact (filt : List Nat → List Nat) (size fuel : Nat)
    (resbuf : List Nat) (stream : List (List Nat)) (count : Nat)
    (hfuel : ((stream.map List.length).sum) < fuel) :
    ∃ d rb st c,
      matchSocketRead (fun ch => some (filt ch)) size fuel resbuf stream count =
          .ok d rb st c ∧
        (d.length = size ∨ (d.length < size ∧ rb = [])) := by
  unfold matchSocketRead
  by_cases h : size ≤ resbuf.length
  · refine ⟨(_get_and_update_res size resbuf).1, (_get_and_update_res size resbuf).2,
      stream, count, by simp [h], Or.inl (length_gau_fst _ _ h)⟩
  · simpa [h] using matchSocketLoop_exact filt size fuel stream resbuf count hfuel (by omega)

/-- Witness for matchSocketRead_exact at a concrete exhaustion scenario: a
request of 3 bytes against a stream holding only 2 delivers the 2-byte
remainder. -/
theorem matchSocketRead_exact_witness :
    ∃ d rb st c,
      matchSocketRead (fun ch => some (id ch)) 3 3 [] [[1, 2]] 0 = .ok d rb st c ∧
        (d.length = 3 ∨ (d.length < 3 ∧ rb = [])) :=
  matchSocketRead_exact id 3 3 [] [[1, 2]] 0 (by decide)

/-- A chunk cut from the backing file around the current position filters to
nothing when the predicate rejects every byte of the file. -/
theorem check_file_chunk_nil (pred : Nat → Bool) (file : List Nat) (pos size : Nat)
    (h1 : ∀ b ∈ file, pred b = false) :
    _check pred ((file.drop pos).take size) [] = [] := by
  rw [_check_eq_filter]
  simp only [List.nil_append]
  rw [List.filter_eq_nil_iff]
  intro a ha
  have : a ∈ file := List.drop_subset pos file (List.take_subset _ _ ha)
  simp [h1 a this]

/-- Step equation for the MatchIO loop: a zero-byte read on the first pass
with an empty residual buffer raises the no-match error. -/
theorem matchIOLoop_zero_noMatch (filt : List Nat → Option (List Nat))
    (file : List Nat) (size fuel pos count : Nat)
    (hn : min size (file.length - pos) = 0) (hs : 0 < size) :
    matchIOLoop filt file size (fuel + 1) pos [] true count = .noMatch := by
  simp [matchIOLoop, hn, hs]

/-- Step equation for the MatchIO loop: a short read that filters to nothing
on the first pass, after the seek back to position 0, raises the no-match
error. -/
theorem matchIOLoop_short_noMatch (filt : List Nat → Option (List Nat))
    (file : List Nat) (size fuel pos count : Nat)
    (hn : ¬min size (file.length - pos) = 0)
    (hlt : min size (file.length - pos) < size)
    (hfc : filt ((file.drop pos).take size) = some [])
    (hs : ¬size ≤ 0) :
    matchIOLoop filt file size (fuel + 1) pos [] true count = .noMatch := by
  simp [matchIOLoop, hn, hlt, hfc, hs]

/-- Step equation for the MatchIO loop: a full-size read that filters to
nothing continues the loop at the advanced position. -/
theorem matchIOLoop_full_next (filt : List Nat → Option (List Nat))
    (file : List Nat) (size fuel pos count : Nat)
    (hn : ¬min size (file.length - pos) = 0)
    (hge : ¬min size (file.length - pos) < size)
    (hfc : filt ((file.drop pos).take size) = some [])
    (hs : ¬size ≤ 0)
    (hp : ¬pos + min size (file.length - pos) = 0) :
    matchIOLoop filt file size (fuel + 1) pos [] true count =
      matchIOLoop filt file size fuel (pos + min size (file.length - pos)) [] true
        (count + min size (file.length - pos)) := by
  simp [matchIOLoop, hn, hge, hfc, hs, hp]

/-- On a file none of whose bytes satisfy the predicate, the MatchIO read
loop in the single-process configuration reaches the end of the first pass
and raises the no-match error, given fuel covering that pass. -/
theorem matchIOLoop_no_match_aux (pred : Nat → Bool) (file : List Nat) (size : Nat)
    (h1 : ∀ b ∈ file, pred b = false) (h2 : 0 < size) :
    ∀ (fuel pos count : Nat), (file.length - pos) / size + 1 ≤ fuel →
      matchIOLoop (fun c => some (_check pred c [])) file size fuel pos [] true count =
        .noMatch := by
  intro fuel
  induction fuel with
  | zero => intro pos count h; exact absurd h (Nat.not_succ_le_zero _)
  | succ n ih =>
    intro pos count hfuel
    have hfc : (fun c => some (_check pred c [])) ((file.drop pos).take size) =
        some [] := by
      simp [check_file_chunk_nil pred file pos size h1]
    by_cases hA : min size (file.length - pos) = 0
    · exact matchIOLoop_zero_noMatch _ file size n pos count hA h2
    · by_cases hB : file.length - pos < size
      · exact matchIOLoop_short_noMatch _ file size n pos count hA (by omega) hfc
          (by omega)
      · have hmin : min size (file.length - pos) = size := by omega
        rw [matchIOLoop_full_next _ file size n pos count hA (by omega) hfc
          (by omega) (by omega)]
        rw [hmin]
        refine ih (pos + size) (count + size) ?_
        have hsplit : file.length - pos = (file.length - (pos + size)) + size := by omega
        have hdiv : (file.length - pos) / size =
            (file.length - (pos + size)) / size + 1 := by
          rw [hsplit, Nat.add_div_right _ h2]
        omega

/-- Claim C5 (amended): for a predicate false on every byte of the backing
file, a MatchIO read in the single-process configuration raises the no-match
ValueError after the very first complete pass through the file — the fuel
bound file length over size plus one covers exactly that pass — and before
any bytes are delivered; in the multiprocess configuration a partial read
smaller than half the minimum work size with no full chunk instead raises
IndexError out of the chunk partitioner. -/
theorem matchIORead_no_match (pred : Nat → Bool) (file : List Nat) (size : Nat)
    (h1 : ∀ b ∈ file, pred b = false) (h2 : 0 < size) :
    matchIORead (fun c => some (_check pred c [])) file size (file.length / size + 1)
      0 [] true 0 = .noMatch := by
  unfold matchIORead
  rw [if_neg (by simp; omega)]
  exact matchIOLoop_no_match_aux pred file size h1 h2 (file.length / size + 1) 0 0
    (by simp)

/-- Witness for matchIORead_no_match on the 3-byte file 5,6,7 with the
constantly false predicate and request size 2. -/
theorem matchIORead_no_match_witness :
    matchIORead (fun c => some (_check (fun _ => false) c [])) [5, 6, 7] 2
      ([5, 6, 7].length / 2 + 1) 0 [] true 0 = .noMatch :=
  matchIORead_no_match (fun _ => false) [5, 6, 7] 2 (by simp) (by decide)

/-- Closed form of the allotment loop: the first r workers get one extra
unit, so the result is r copies of q plus one followed by the remaining
copies of q. -/
theorem range_map_allot (n r q : Nat) (h : r ≤ n) :
    (List.range n).map (fun i => q + if i < r then 1 else 0) =
      List.replicate r (q + 1) ++ List.replicate (n - r) q := by
  induction n with
  | zero =>
    have : r = 0 := by omega
    simp [this]
  | succ m ih =>
    rw [List.range_succ, List.map_append]
    by_cases hr : r ≤ m
    · rw [ih hr]
      have hnr : ¬m < r := by omega
      have : m + 1 - r = (m - r) + 1 := by omega
      simp [hnr, this, List.replicate_succ', List.append_assoc]
    · have hreq : r = m + 1 := by omega
      subst hreq
      have hmap : (List.range m).map (fun i => q + if i < m + 1 then 1 else 0) =
          List.replicate m (q + 1) := by
        have hcong : ∀ i ∈ List.range m,
            q + (if i < m + 1 then 1 else 0) = q + 1 := by
          intro i hi
          have : i < m := List.mem_range.mp hi
          have : i < m + 1 := by omega
          simp [this]
        calc (List.range m).map (fun i => q + if i < m + 1 then 1 else 0)
            = (List.range m).map (fun _ => q + 1) := List.map_congr_left hcong
          _ = List.replicate (List.range m).length (q + 1) := List.map_const' _ _
          _ = List.replicate m (q + 1) := by rw [List.length_range]
      rw [hmap]
      have hm : m < m + 1 := by omega
      simp [hm, List.replicate_succ']

/-- Sum of the closed-form allotment. -/
theorem sum_replicate_allot (r q n : Nat) (h : r ≤ n) :
    (List.replicate r (q + 1) ++ List.replicate (n - r) q).sum = n * q + r := by
  simp only [List.sum_append, List.sum_replicate, smul_eq_mul]
  have h1 : (n - r) * q = n * q - r * q := by
    rw [Nat.sub_mul]
  have h2 : r * q ≤ n * q := Nat.mul_le_mul_right q h
  have h3 : r * (q + 1) = r * q + r := by ring
  omega

/-- Claim C4: for every total size and worker count at least 1, the size
allotter returns the closed-form allotment — the remainder distributed one
unit to each of the first workers in index order — and consequently a list
of exactly num entries summing to the total with every entry within one of
the quotient; including the two quoted instances. -/
theorem allot_size_spec (size num : Nat) (h : 1 ≤ num) :
    __allot_size size num =
        .ok (List.replicate (size % num) (size / num + 1) ++
          List.replicate (num - size % num) (size / num)) ∧
      (∀ l, __allot_size size num = .ok l →
        l.length = num ∧ l.sum = size ∧
          ∀ x ∈ l, size / num ≤ x ∧ x ≤ size / num + 1) ∧
      __allot_size 0 1 = .ok [0] ∧ __allot_size 10 3 = .ok [4, 3, 3] := by
  have hnz : num ≠ 0 := by omega
  have hr : size % num ≤ num := le_of_lt (Nat.mod_lt size (by omega))
  have hform : __allot_size size num =
      .ok (List.replicate (size % num) (size / num + 1) ++
        List.replicate (num - size % num) (size / num)) := by
    simp only [__allot_size, hnz, if_false]
    rw [range_map_allot num (size % num) (size / num) hr]
  refine ⟨hform, ?_, by rfl, by rfl⟩
  intro l hl
  rw [hform] at hl
  have hleq : l = List.replicate (size % num) (size / num + 1) ++
      List.replicate (num - size % num) (size / num) := by
    cases hl
    rfl
  subst hleq
  refine ⟨?_, ?_, ?_⟩
  · simp [List.length_append, List.length_replicate]
    omega
  · rw [sum_replicate_allot _ _ _ hr]
    have := Nat.div_add_mod size num
    omega
  · intro x hx
    rcases List.mem_append.mp hx with hx1 | hx2
    · have := List.eq_of_mem_replicate hx1
      omega
    · have := List.eq_of_mem_replicate hx2
      omega

/-- Witness for allot_size_spec at total 10 and three workers. -/
theorem allot_size_spec_witness :
    __allot_size 10 3 =
        .ok (List.replicate (10 % 3) (10 / 3 + 1) ++
          List.replicate (3 - 10 % 3) (10 / 3)) ∧
      (∀ l, __allot_size 10 3 = .ok l →
        l.length = 3 ∧ l.sum = 10 ∧ ∀ x ∈ l, 10 / 3 ≤ x ∧ x ≤ 10 / 3 + 1) ∧
      __allot_size 0 1 = .ok [0] ∧ __allot_size 10 3 = .ok [4, 3, 3] :=
  allot_size_spec 10 3 (by decide)

/-- One bounded append keeps the last C elements of the extended sequence
and never leaves more than C elements. -/
theorem dequeAppendMax_eq (C : Nat) (q : List Nat) (b : Nat) :
    dequeAppendMax C q b = (q ++ [b]).drop ((q.length + 1) - C) := by
  simp [dequeAppendMax]

/-- Length after one bounded append. -/
theorem dequeAppendMax_length (C : Nat) (q : List Nat) (b : Nat) :
    (dequeAppendMax C q b).length = min C (q.length + 1) := by
  rw [dequeAppendMax_eq]
  simp [List.length_drop]
  omega

/-- Claim C7: starting from any cache state within capacity — in particular
the empty cache the client starts with — extending the retention cache by any
sequence of bytes leaves exactly the suffix of the inserted stream that fits
the capacity: the last C bytes in insertion order once the total exceeds C,
and never more than C bytes after any insertion. -/
theorem retention_cache_last_C (C : Nat) (q xs : List Nat) (h : q.length ≤ C) :
    dequeExtend C q xs = (q ++ xs).drop ((q ++ xs).length - C) ∧
      (dequeExtend C q xs).length ≤ C := by
  have main : ∀ (ys : List Nat) (p : List Nat), p.length ≤ C →
      dequeExtend C p ys = (p ++ ys).drop ((p ++ ys).length - C) := by
    intro ys
    induction ys with
    | nil =>
      intro p hp
      have : p.length - C = 0 := by omega
      simp [dequeExtend, this]
    | cons a ys ih =>
      intro p hp
      have hstep : dequeExtend C p (a :: ys) = dequeExtend C (dequeAppendMax C p a) ys := by
        simp [dequeExtend]
      rw [hstep, ih (dequeAppendMax C p a) (by rw [dequeAppendMax_length]; omega)]
      rw [dequeAppendMax_eq]
      have hd : (p.length + 1) - C ≤ (p ++ [a]).length := by simp
      rw [← List.drop_append_of_le_length hd, List.drop_drop]
      have hlist : p ++ [a] ++ ys = p ++ a :: ys := by simp
      rw [hlist]
      congr 1
      simp only [List.length_drop, List.length_append, List.length_cons]
      omega
  have h1 := main xs q h
  refine ⟨h1, ?_⟩
  rw [h1]
  simp only [List.length_drop, List.length_append]
  omega

/-- Witness for retention_cache_last_C: capacity 3, empty initial cache, five
inserted bytes — the cache retains the last three. -/
theorem retention_cache_last_C_witness :
    dequeExtend 3 [] [1, 2, 3, 4, 5] =
        (([] : List Nat) ++ [1, 2, 3, 4, 5]).drop
          ((([] : List Nat) ++ [1, 2, 3, 4, 5]).length - 3) ∧
      (dequeExtend 3 [] [1, 2, 3, 4, 5]).length ≤ 3 :=
  retention_cache_last_C 3 [] [1, 2, 3, 4, 5] (by decide)

/-- Collecting worker futures succeeds exactly when every worker succeeded,
in which case the outcome list is the success list in order. -/
theorem collectResults_ok (outcomes : List (Except String WorkerResult)) :
    ∀ rs, collectResults outcomes = .ok rs → outcomes = rs.map Except.ok := by
  induction outcomes with
  | nil =>
    intro rs h
    simp [collectResults] at h
    simp [← h]
  | cons f fs ih =>
    intro rs h
    match f with
    | .error e => simp [collectResults] at h
    | .ok r =>
      simp only [collectResults] at h
      cases hfs : collectResults fs with
      | error e => rw [hfs] at h; simp [Except.map] at h
      | ok rs2 =>
        rw [hfs] at h
        simp [Except.map] at h
        rw [← h, List.map_cons]
        rw [ih rs2 hfs]

/-- A failed worker makes the collection re-raise some worker exception. -/
theorem collectResults_error (outcomes : List (Except String WorkerResult)) :
    (∃ e, Except.error e ∈ outcomes) → ∃ e2, collectResults outcomes = .error e2 := by
  induction outcomes with
  | nil => intro ⟨e, he⟩; simp at he
  | cons f fs ih =>
    intro ⟨e, he⟩
    match f with
    | .error e3 => exact ⟨e3, by simp [collectResults]⟩
    | .ok r =>
      have : Except.error e ∈ fs := by
        rcases List.mem_cons.mp he with h1 | h2
        · exact absurd h1 (by simp)
        · exact h2
      obtain ⟨e2, he2⟩ := ih ⟨e, this⟩
      exact ⟨e2, by simp [collectResults, he2, Except.map]⟩

/-- Claim C6 (amended): when any worker fails, the orchestrator re-raises a
worker exception while collecting results and produces no aggregate summary;
the aggregate — wall-clock span, summed delivered bytes, summed raw bytes —
is produced exactly when every worker succeeded. -/
theorem doStart_aggregation (outcomes : List (Except String WorkerResult)) :
    ((∃ e, Except.error e ∈ outcomes) → ∃ e2, doStart outcomes = .error e2) ∧
      (∀ rs, collectResults outcomes = .ok rs →
        outcomes = rs.map Except.ok ∧
          doStart outcomes = .ok
            { totalDur := ((rs.map fun r => (r.tEnd : Int)).max?.getD 0)
                - ((rs.map fun r => (r.tStart : Int)).min?.getD 0)
            , totalRecvd := (rs.map fun r => r.recvd).sum
            , totalRaw := (rs.map fun r => r.rawCount).sum }) := by
  constructor
  · intro hmem
    obtain ⟨e2, he2⟩ := collectResults_error outcomes hmem
    exact ⟨e2, by simp [doStart, he2]⟩
  · intro rs hok
    refine ⟨collectResults_ok outcomes rs hok, ?_⟩
    simp [doStart, hok]

/-- Witness for doStart_aggregation: one surviving worker with 50 delivered
bytes and one failed worker yield an error and no summary. -/
theorem doStart_aggregation_witness :
    ∃ e2, doStart [Except.ok ⟨0, 1, 50, 50⟩, Except.error "ConnectionRefused"] =
      .error e2 :=
  (doStart_aggregation [Except.ok ⟨0, 1, 50, 50⟩, Except.error "ConnectionRefused"]).1
    ⟨"ConnectionRefused", by simp⟩

/-- Accounting bound for the client receive loop, for any filter read whose
delivered data never exceeds the requested size and which, for some
potential function on filter states (the residual buffer size), never
delivers more than it consumes plus the drop in potential: the loop
terminates within the fuel bound, the delivered total is bounded by the byte
budget plus the initial potential, the remaining budget always equals the
initial budget minus the raw bytes consumed, and a loop that did not break
on a zero-consumption read ran its budget to zero or below. -/
theorem clientLoop_bound {σ : Type} (f : σ → Nat → List Nat × Nat × σ) (pot : σ → Nat)
    (bufsize : Nat)
    (h1 : ∀ s n, (f s n).1.length ≤ n)
    (h2 : ∀ s n, (f s n).1.length + pot (f s n).2.2 ≤ (f s n).2.1 + pot s) :
    ∀ (fuel : Nat) (s : σ) (left : Int) (recvd raw : Nat), left.toNat < fuel →
      ∃ r, clientLoop f bufsize fuel s left recvd raw = some r ∧
        r.recvd ≤ recvd + left.toNat + pot s ∧
        (r.left : Int) = left - ((r.raw : Int) - (raw : Int)) ∧
        raw ≤ r.raw ∧
        (r.broke = false → r.left ≤ 0) := by
  intro fuel
  induction fuel with
  | zero => intro s left recvd raw h; omega
  | succ n ih =>
    intro s left recvd raw hfuel
    by_cases hneg : left ≤ 0
    · refine ⟨⟨recvd, left, raw, false, s⟩, by simp [clientLoop, hneg], ?_, ?_, ?_, ?_⟩
      · simp
        omega
      · simp
      · simp
      · intro _
        exact hneg
    · by_cases hc : (f s (min bufsize left.toNat)).2.1 = 0
      · refine ⟨⟨recvd, left, raw, true, (f s (min bufsize left.toNat)).2.2⟩,
          by simp [clientLoop, hneg, hc], ?_, ?_, ?_, ?_⟩
        · simp
          omega
        · simp
        · simp
        · intro hbk
          simp at hbk
      · by_cases hstop : left - ((f s (min bufsize left.toNat)).2.1 : Int) ≤ 0
        · obtain ⟨m, hm⟩ : ∃ m, n = m + 1 := ⟨n - 1, by omega⟩
          subst hm
          refine ⟨⟨recvd + (f s (min bufsize left.toNat)).1.length,
              left - ((f s (min bufsize left.toNat)).2.1 : Int),
              raw + (f s (min bufsize left.toNat)).2.1, false,
              (f s (min bufsize left.toNat)).2.2⟩,
            by simp [clientLoop, hneg, hc, hstop], ?_, ?_, ?_, ?_⟩
          · have hd := h1 s (min bufsize left.toNat)
            simp
            omega
          · simp
          · simp
          · intro _
            exact hstop
        · have hlt : (left - ((f s (min bufsize left.toNat)).2.1 : Int)).toNat < n := by
            omega
          obtain ⟨r, hr, hb1, hb2, hb3, hb4⟩ := ih (f s (min bufsize left.toNat)).2.2
            (left - ((f s (min bufsize left.toNat)).2.1 : Int))
            (recvd + (f s (min bufsize left.toNat)).1.length)
            (raw + (f s (min bufsize left.toNat)).2.1) hlt
          refine ⟨r, ?_, ?_, ?_, ?_, hb4⟩
          · rw [show clientLoop f bufsize (n + 1) s left recvd raw =
              clientLoop f bufsize n (f s (min bufsize left.toNat)).2.2
                (left - ((f s (min bufsize left.toNat)).2.1 : Int))
                (recvd + (f s (min bufsize left.toNat)).1.length)
                (raw + (f s (min bufsize left.toNat)).2.1) from by
                simp [clientLoop, hneg, hc]]
            exact hr
          · have hd := h1 s (min bufsize left.toNat)
            have hp := h2 s (min bufsize left.toNat)
            omega
          · omega
          · omega

/-- Claim C10 (amended): in the client receive loop driven by a filter
satisfying the spec read contract, the remaining-byte budget is decremented
by the raw bytes consumed on each read — the final budget equals the
requested size minus the cumulative raw count — the loop ends once the
cumulative raw consumption reaches the allotted size unless a read consumed
nothing, and the total delivered bytes never exceed the requested size; with
a discarding filter the delivered total can still equal the requested size
when the over-consumption happens only on the final read, so it is not
strictly less in general. -/
theorem clientLoop_recvd_le_size {σ : Type} (f : σ → Nat → List Nat × Nat × σ)
    (pot : σ → Nat) (bufsize size fuel : Nat) (s0 : σ)
    (h1 : ∀ s n, (f s n).1.length ≤ n)
    (h2 : ∀ s n, (f s n).1.length + pot (f s n).2.2 ≤ (f s n).2.1 + pot s)
    (h3 : pot s0 = 0) (hf : size < fuel) :
    ∃ r, clientLoop f bufsize fuel s0 (size : Int) 0 0 = some r ∧
      r.recvd ≤ size ∧
      (r.left : Int) = (size : Int) - (r.raw : Int) ∧
      (r.broke = false → r.left ≤ 0) := by
  obtain ⟨r, hr, hb1, hb2, hb3, hb4⟩ := clientLoop_bound f pot bufsize h1 h2 fuel s0
    (size : Int) 0 0 (by omega)
  refine ⟨r, hr, ?_, ?_, hb4⟩
  · omega
  · omega

/-- Witness for clientLoop_recvd_le_size with a trivial filter that delivers
nothing and consumes one raw byte per call. -/
theorem clientLoop_recvd_le_size_witness :
    ∃ r, clientLoop (fun (s : Unit) (_ : Nat) => ([], 1, s)) 4 3 () (2 : Int) 0 0 =
        some r ∧
      r.recvd ≤ 2 ∧ (r.left : Int) = (2 : Int) - (r.raw : Int) ∧
      (r.broke = false → r.left ≤ 0) :=
  clientLoop_recvd_le_size (fun (s : Unit) (_ : Nat) => ([], 1, s)) (fun _ => 0) 4 2 3 ()
    (fun _ _ => by simp) (fun _ _ => by simp) rfl (by omega)

/-- Claim C10 counterexample: driven by the embedded MatchSocket filter with
the even-byte predicate over twenty raw bytes, a transfer of requested size
10 delivers exactly 10 bytes — not strictly fewer — while the filter consumed
20 raw bytes, half of which it discarded. -/
theorem clientLoop_delivers_full_size :
    clientLoop (matchFilterStep fun b => b % 2 == 0) 10 5 ([], [List.range 20], 0)
        (10 : Int) 0 0 =
      some ⟨10, -10, 20, false, ([], [], 20)⟩ ∧ ¬((10 : Nat) < 10) := by
  decide

/-- Supporting: any normal return of the MatchSocket loop, in either
filtering configuration, delivers exactly the requested size or the
exhaustion remainder with the residual buffer drained. -/
theorem matchSocketLoop_ok_shape (filt : List Nat → Option (List Nat)) (size : Nat) :
    ∀ (fuel : Nat) (resbuf : List Nat) (stream : List (List Nat)) (count : Nat)
      (d rb : List Nat) (st : List (List Nat)) (c : Nat),
      matchSocketLoop filt size fuel resbuf stream count = .ok d rb st c →
      resbuf.length < size →
      (d.length = size ∨ (d.length < size ∧ rb = [])) := by
  intro fuel
  induction fuel with
  | zero =>
    intro resbuf stream count d rb st c h hlen
    simp [matchSocketLoop] at h
  | succ n ih =>
    intro resbuf stream count d rb st c h hlen
    simp only [matchSocketLoop] at h
    split at h
    · rw [gau_drain] at h
      cases h
      exact Or.inr ⟨hlen, rfl⟩
    · split at h
      · cases h
      · rename_i fc hfc
        split at h
        · rename_i hsz
          cases h
          exact Or.inl (length_gau_fst _ _ hsz)
        · rename_i hsz
          exact ih _ _ _ _ _ _ _ h (by simp at hsz; simpa using hsz)

end Pyben
